import Mathlib

/-!
Shallow embedding of the xblade scheduler core (scheduler actions, Bull
queue service, cron trigger loop, EA API client) and proofs about it.

Time is modelled as a uniform timeline of milliseconds since the Unix
epoch (a `Nat`).  JavaScript `Date` operations used by the source
(`getDay`, `setDate`, `setHours`, comparison) are translated on the
assumption of a fixed-offset civil timezone (no DST transition inside the
7-day scan window): days are uniform blocks of 86 400 000 ms and the
epoch day (day 0) is a Thursday, so `getDay(epoch) = 4`.
-/

namespace XBlade

/-- Milliseconds in one hour. -/
def msPerHour : Nat := 3600000

/-- Milliseconds in one day. -/
def msPerDay : Nat := 86400000

/-- JavaScript `Date.prototype.getDay()` on the uniform timeline:
day-of-week of the timestamp, with Sunday = 0.  Day 0 (the epoch) is a
Thursday, hence the `+ 4`. -/
def getDay (t : Nat) : Nat := (t / msPerDay + 4) % 7

/-- `scheduleConfig` of a scheduler (src/lib/models usage): start/end hour,
days-of-week list, timezone label.  `endHour` and `timezone` are carried
but never read by `calculateNextRun`, matching the source. -/
structure ScheduleConfig where
  startHour : Nat
  endHour : Nat
  daysOfWeek : List Nat
  timezone : String
deriving DecidableEq, Repr

/-- The candidate timestamp built by the loop body of `calculateNextRun`
(src/lib/actions/scheduler.actions.ts lines 464-466): `now` shifted by
`k` days (`setDate(getDate() + daysToAdd)`) and anchored at
`startHour:00:00.000` (`setHours(startHour, 0, 0, 0)`). -/
def candidate (now startHour k : Nat) : Nat :=
  (now / msPerDay + k) * msPerDay + startHour * msPerHour

/-- The with-config branch of `calculateNextRun`
(src/lib/actions/scheduler.actions.ts lines 457-484): scan `daysToAdd`
from 0 to 6 for the first candidate whose weekday is in `daysOfWeek` and
which lies strictly after `now`; if none qualifies, fall back to next
week's day at `startHour` (lines 477-482), which is `candidate now sh 7`. -/
def calculateNextRunCfg (now : Nat) (cfg : ScheduleConfig) : Nat :=
  match (List.range 7).find? (fun k =>
      cfg.daysOfWeek.contains (getDay (candidate now cfg.startHour k)) &&
      decide (now < candidate now cfg.startHour k)) with
  | some k => candidate now cfg.startHour k
  | none => candidate now cfg.startHour 7

/-- The no-config branch of `calculateNextRun`
(src/lib/actions/scheduler.actions.ts lines 446-453):
`setHours(getHours() + 1)`, then minutes/seconds/milliseconds zero.
`setHours(24)` rolls over to the next day, exactly as in JavaScript. -/
def calculateNextRunNoCfg (now : Nat) : Nat :=
  (now / msPerDay) * msPerDay + ((now % msPerDay) / msPerHour + 1) * msPerHour

/-- `calculateNextRun(scheduleConfig?)`: the optional argument selects the
branch (`if (!scheduleConfig)`). -/
def calculateNextRun (now : Nat) : Option ScheduleConfig → Nat
  | none => calculateNextRunNoCfg now
  | some cfg => calculateNextRunCfg now cfg

/-! ### Arithmetic facts about the candidate timestamps -/

theorem candidate_mod_day (now sh k : Nat) (hsh : sh ≤ 23) :
    candidate now sh k % msPerDay = sh * msPerHour := by
  unfold candidate msPerDay msPerHour
  omega

theorem getDay_candidate (now sh k : Nat) (hsh : sh ≤ 23) :
    getDay (candidate now sh k) = (now / msPerDay + k + 4) % 7 := by
  unfold getDay candidate msPerDay msPerHour
  omega

theorem candidate_gt_now (now sh k : Nat) (hk : 1 ≤ k) :
    now < candidate now sh k := by
  unfold candidate msPerDay msPerHour
  omega

theorem calculateNextRunNoCfg_eq (now : Nat) :
    calculateNextRunNoCfg now = (now / msPerHour + 1) * msPerHour := by
  unfold calculateNextRunNoCfg msPerDay msPerHour
  omega

/-- Core correctness of the with-config branch: for a non-empty
`daysOfWeek ⊆ {0..6}` and `startHour ≤ 23` the result is strictly after
`now`, on a weekday from `daysOfWeek`, at `startHour:00:00.000`. -/
theorem calculateNextRunCfg_spec (now : Nat) (cfg : ScheduleConfig)
    (hne : cfg.daysOfWeek ≠ []) (hdw : ∀ d ∈ cfg.daysOfWeek, d ≤ 6)
    (hsh : cfg.startHour ≤ 23) :
    now < calculateNextRunCfg now cfg ∧
    getDay (calculateNextRunCfg now cfg) ∈ cfg.daysOfWeek ∧
    calculateNextRunCfg now cfg % msPerDay = cfg.startHour * msPerHour := by
  unfold calculateNextRunCfg
  split
  case h_1 k hfind =>
    have hk := List.find?_some hfind
    simp only [Bool.and_eq_true, decide_eq_true_eq, List.contains, List.elem_iff] at hk
    exact ⟨hk.2, hk.1, candidate_mod_day now cfg.startHour k hsh⟩
  case h_2 hfind =>
    have hnone := List.find?_eq_none.mp hfind
    obtain ⟨d, hd⟩ := List.exists_mem_of_ne_nil cfg.daysOfWeek hne
    have hd6 : d ≤ 6 := hdw d hd
    have key : ∀ k, k < 7 → 1 ≤ k →
        getDay (candidate now cfg.startHour k) ∉ cfg.daysOfWeek := by
      intro k hk7 hk1 hmem
      have hnk := hnone k (List.mem_range.mpr hk7)
      simp only [Bool.and_eq_true, decide_eq_true_eq, List.contains, List.elem_iff,
        not_and] at hnk
      exact absurd (candidate_gt_now now cfg.startHour k hk1) (hnk hmem)
    -- the unique scan offset whose candidate falls on weekday `d`
    set D := now / msPerDay with hD
    set k := (d + 7 - (D + 4) % 7) % 7 with hkdef
    have hk7 : k < 7 := Nat.mod_lt _ (by norm_num)
    have hgd : (D + k + 4) % 7 = d := by omega
    by_cases hk0 : k = 0
    · -- only today's weekday can be in daysOfWeek; the fallback lands on it
      have h7 : getDay (candidate now cfg.startHour 7) = d := by
        rw [getDay_candidate now cfg.startHour 7 hsh]
        omega
      exact ⟨candidate_gt_now now cfg.startHour 7 (by norm_num),
        h7 ▸ hd, candidate_mod_day now cfg.startHour 7 hsh⟩
    · exfalso
      apply key k hk7 (Nat.one_le_iff_ne_zero.mpr hk0)
      rw [getDay_candidate now cfg.startHour k hsh]
      have : (now / msPerDay + k + 4) % 7 = d := hgd
      rw [this]
      exact hd

/-- A fixed sample window: Tuesdays at 20:00. -/
def cfgTue : ScheduleConfig :=
  { startHour := 20, endHour := 23, daysOfWeek := [2], timezone := "EST" }

/-- C1: for every time `now` and every schedule window whose `daysOfWeek`
is non-empty (with `startHour` in `[0,23]` and `daysOfWeek ⊆ {0..6}`),
`calculateNextRun` returns a timestamp strictly after `now`, whose
day-of-week is a member of `daysOfWeek`, and whose time-of-day is exactly
`startHour:00:00.000`. -/
theorem C1_calculateNextRun_config_correct (now : Nat) (cfg : ScheduleConfig)
    (hne : cfg.daysOfWeek ≠ []) (hdw : ∀ d ∈ cfg.daysOfWeek, d ≤ 6)
    (hsh : cfg.startHour ≤ 23) :
    now < calculateNextRun now (some cfg) ∧
    getDay (calculateNextRun now (some cfg)) ∈ cfg.daysOfWeek ∧
    calculateNextRun now (some cfg) % msPerDay = cfg.startHour * msPerHour :=
  calculateNextRunCfg_spec now cfg hne hdw hsh

/-- Witness for C1 at `now = 0` (Thursday 00:00:00.000 UTC) with the
Tuesday-20:00 window. -/
theorem C1_calculateNextRun_config_correct_witness :
    (cfgTue.daysOfWeek ≠ [] ∧ (∀ d ∈ cfgTue.daysOfWeek, d ≤ 6) ∧ cfgTue.startHour ≤ 23) ∧
    (0 < calculateNextRun 0 (some cfgTue) ∧
      getDay (calculateNextRun 0 (some cfgTue)) ∈ cfgTue.daysOfWeek ∧
      calculateNextRun 0 (some cfgTue) % msPerDay = cfgTue.startHour * msPerHour) :=
  ⟨⟨by decide, by decide, by decide⟩,
    C1_calculateNextRun_config_correct 0 cfgTue (by decide) (by decide) (by decide)⟩

/-! ## Scheduler data model

Field shapes follow the usage of `IScheduler` throughout
`scheduler.actions.ts`, the scheduler service, and the scheduler form:
`scheduleConfig {startHour, endHour, daysOfWeek, timezone}`,
`collectionSettings {platform, matchType, frequencyMinutes,
retryAttempts, retryDelayMinutes}`, `clubs`, `isActive`, `lastRun`,
`nextRun`, `executionHistory`.  Match payloads are opaque to the
scheduler; an item is modelled as a `Nat`. -/

/-- Status of one execution-history entry.  The source stores the string
literals success / error / partial; `partialRun` stands for the source
literal since that word is a Lean keyword. -/
inductive ExecStatus where
  | success
  | error
  | partialRun
deriving DecidableEq, Repr

/-- One entry of `executionHistory` (`IExecutionHistory`). -/
structure ExecutionHistoryEntry where
  timestamp : Nat
  status : ExecStatus
  matchesCollected : Nat
  clubsProcessed : Nat
  errorMsg : Option String
  duration : Nat
deriving DecidableEq, Repr

/-- `collectionSettings` of a scheduler. -/
structure CollectionSettings where
  platform : String
  matchType : String
  frequencyMinutes : Nat
  retryAttempts : Nat
  retryDelayMinutes : Nat
deriving DecidableEq, Repr

/-- The scheduler ("Task") document. -/
structure Scheduler where
  schedulerId : String
  name : String
  isActive : Bool
  scheduleConfig : ScheduleConfig
  collectionSettings : CollectionSettings
  clubs : List String
  lastRun : Option Nat
  nextRun : Option Nat
  executionHistory : List ExecutionHistoryEntry
deriving DecidableEq, Repr

/-- `startScheduler` (scheduler.actions.ts lines 196-220): set
`isActive := true` and `nextRun := calculateNextRun()` — note the call
passes NO schedule config. -/
def startScheduler (now : Nat) (t : Scheduler) : Scheduler :=
  { t with isActive := true, nextRun := some (calculateNextRun now none) }

/-- `stopScheduler` (scheduler.actions.ts lines 227-251): set
`isActive := false` and clear `nextRun`. -/
def stopScheduler (t : Scheduler) : Scheduler :=
  { t with isActive := false, nextRun := none }

/-- The execution payload passed to `updateSchedulerExecution`. -/
structure ExecutionData where
  status : ExecStatus
  matchesCollected : Nat
  clubsProcessed : Nat
  errorMsg : Option String
  duration : Nat
deriving DecidableEq, Repr

/-- `updateSchedulerExecution` (scheduler.actions.ts lines 373-407): set
`lastRun := now`, `nextRun := calculateNextRun()` (again with NO config,
and without consulting `isActive`), and push the execution entry onto
`executionHistory`. -/
def updateSchedulerExecution (now : Nat) (ed : ExecutionData) (t : Scheduler) : Scheduler :=
  { t with
    lastRun := some now,
    nextRun := some (calculateNextRun now none),
    executionHistory := t.executionHistory ++
      [{ timestamp := now, status := ed.status, matchesCollected := ed.matchesCollected,
         clubsProcessed := ed.clubsProcessed, errorMsg := ed.errorMsg,
         duration := ed.duration }] }

/-- `updateScheduler` when the update carries a schedule config
(scheduler.actions.ts lines 140-166): recompute
`nextRun := calculateNextRun(updateData.scheduleConfig)` and store the
new config (no `isActive` check either). -/
def updateSchedulerConfig (now : Nat) (cfg : ScheduleConfig) (t : Scheduler) : Scheduler :=
  { t with scheduleConfig := cfg, nextRun := some (calculateNextRun now (some cfg)) }

/-- The Task invariants stated by the spec (§3): `nextRun` absent whenever
`active` is false; when present, its day-of-week belongs to `daysOfWeek`
and its time-of-day is `startHour:00:00.000`. -/
def taskInvariant (t : Scheduler) : Prop :=
  (t.isActive = false → t.nextRun = none) ∧
  ∀ r, t.nextRun = some r →
    getDay r ∈ t.scheduleConfig.daysOfWeek ∧
    r % msPerDay = t.scheduleConfig.startHour * msPerHour

/-- A sample inactive scheduler with the Tuesday-20:00 window. -/
def schedTue : Scheduler :=
  { schedulerId := "s1", name := "tuesday import", isActive := false,
    scheduleConfig := cfgTue,
    collectionSettings :=
      { platform := "common-gen5", matchType := "club_private",
        frequencyMinutes := 30, retryAttempts := 3, retryDelayMinutes := 5 },
    clubs := ["club1", "club2", "club3"],
    lastRun := none, nextRun := none, executionHistory := [] }

/-- A sample execution payload. -/
def edSample : ExecutionData :=
  { status := .success, matchesCollected := 2, clubsProcessed := 3,
    errorMsg := none, duration := 5 }

/-- Counterexample to C3: `schedTue` satisfies the Task invariants, but
after `startScheduler` (at `now = 0`, a Thursday) its `nextRun` is the
next top-of-hour 01:00 Thursday, which is neither on a configured weekday
(Tuesday) nor at the configured `startHour` (20). -/
theorem C3_counterexample_start_breaks_invariant :
    taskInvariant schedTue ∧ ¬ taskInvariant (startScheduler 0 schedTue) := by
  constructor
  · exact ⟨fun _ => rfl, fun r hr => nomatch hr⟩
  · intro h
    exact absurd (h.2 (calculateNextRun 0 none) rfl).1 (by decide)

/-- C3 amended: only `stopScheduler` preserves the full Task invariants.
`startScheduler` leaves the task active (so the absence invariant holds
vacuously) but sets `nextRun` to the next top-of-hour via the no-config
branch, which need not satisfy the window conditions;
`updateSchedulerExecution` sets `nextRun` to the next top-of-hour
unconditionally — even when `isActive` is false — so it can also break
the absence invariant; a schedule-window update (`updateScheduler` with a
config) does put `nextRun` on a configured weekday at `startHour`, though
it too sets `nextRun` without consulting `isActive`. -/
theorem C3_amended_task_mutations (now : Nat) (t : Scheduler) (cfg : ScheduleConfig)
    (ed : ExecutionData)
    (hne : cfg.daysOfWeek ≠ []) (hdw : ∀ d ∈ cfg.daysOfWeek, d ≤ 6)
    (hsh : cfg.startHour ≤ 23) :
    taskInvariant (stopScheduler t) ∧
    (startScheduler now t).isActive = true ∧
    (startScheduler now t).nextRun = some (calculateNextRun now none) ∧
    (updateSchedulerExecution now ed t).nextRun = some (calculateNextRun now none) ∧
    (updateSchedulerExecution now ed t).isActive = t.isActive ∧
    (∀ r, (updateSchedulerConfig now cfg t).nextRun = some r →
      getDay r ∈ cfg.daysOfWeek ∧ r % msPerDay = cfg.startHour * msPerHour) := by
  refine ⟨⟨fun _ => rfl, fun r hr => nomatch hr⟩, rfl, rfl, rfl, rfl, ?_⟩
  intro r hr
  have hr' : calculateNextRun now (some cfg) = r := by
    simpa [updateSchedulerConfig] using hr
  subst hr'
  exact ⟨(calculateNextRunCfg_spec now cfg hne hdw hsh).2.1,
    (calculateNextRunCfg_spec now cfg hne hdw hsh).2.2⟩

/-- Witness for the amended C3 at `now = 0`, `schedTue`, `cfgTue`. -/
theorem C3_amended_task_mutations_witness :
    (cfgTue.daysOfWeek ≠ [] ∧ (∀ d ∈ cfgTue.daysOfWeek, d ≤ 6) ∧ cfgTue.startHour ≤ 23) ∧
    (taskInvariant (stopScheduler schedTue) ∧
      (startScheduler 0 schedTue).isActive = true ∧
      (startScheduler 0 schedTue).nextRun = some (calculateNextRun 0 none) ∧
      (updateSchedulerExecution 0 edSample schedTue).nextRun = some (calculateNextRun 0 none) ∧
      (updateSchedulerExecution 0 edSample schedTue).isActive = schedTue.isActive ∧
      (∀ r, (updateSchedulerConfig 0 cfgTue schedTue).nextRun = some r →
        getDay r ∈ cfgTue.daysOfWeek ∧ r % msPerDay = cfgTue.startHour * msPerHour)) :=
  ⟨⟨by decide, by decide, by decide⟩,
    C3_amended_task_mutations 0 schedTue cfgTue edSample (by decide) (by decide) (by decide)⟩

/-- C9: with no schedule config, `calculateNextRun` returns the current
time rounded up to the next full hour (a multiple of an hour, strictly
after `now`, at most one hour ahead), and this is precisely the value
`startScheduler` and `updateSchedulerExecution` store in `nextRun` —
independent of the task (hence of its `daysOfWeek` and `startHour`). -/
theorem C9_noConfig_nextHour (now : Nat) (t : Scheduler) (ed : ExecutionData) :
    (startScheduler now t).nextRun = some (calculateNextRun now none) ∧
    (updateSchedulerExecution now ed t).nextRun = some (calculateNextRun now none) ∧
    (∀ t' : Scheduler, (startScheduler now t').nextRun = (startScheduler now t).nextRun) ∧
    (∀ t' : Scheduler, (updateSchedulerExecution now ed t').nextRun =
      (updateSchedulerExecution now ed t).nextRun) ∧
    now < calculateNextRun now none ∧
    calculateNextRun now none % msPerHour = 0 ∧
    calculateNextRun now none ≤ now + msPerHour := by
  have he : calculateNextRun now none = calculateNextRunNoCfg now := rfl
  refine ⟨rfl, rfl, fun _ => rfl, fun _ => rfl, ?_, ?_, ?_⟩ <;>
    · rw [he]
      unfold calculateNextRunNoCfg msPerDay msPerHour
      omega

/-! ## Task Runner: the per-club collection loop -/

/-- Result of `getClubMatches` as seen by `importMatchesFromEA`:
`failed` models a null return (network error or a non-success response,
both caught inside `getClubMatches`, src/lib/services/eaApiService.ts
lines 91-133), `nonArray` a JSON payload that is not an array, `arr` an
array of match payloads (each payload modelled as an opaque `Nat`). -/
inductive FetchResult where
  | failed
  | nonArray
  | arr (items : List Nat)
deriving DecidableEq, Repr

/-- The external collaborators of one runner execution.  `findClub` is
`Club.findOne` (`.error` = the database lookup threw, `.ok false` = no
such club, `.ok true` = found); `fetchUpstream` is `getClubMatches`;
`saveMatch` is `createMatch` (`none` = it returned null). -/
structure RunEnv where
  findClub : String → Except String Bool
  fetchUpstream : String → FetchResult
  saveMatch : Nat → Option Nat

/-- `importMatchesFromEA` (match actions, src/unnamed/part_013 lines
196-228): fetch from the EA client; on a null, non-array or empty payload
return `[]`; otherwise save each match and collect the non-null results;
its surrounding try/catch turns any failure into `[]` as well, so the
function is total and list-valued on every path. -/
def importMatchesFromEA (env : RunEnv) (clubId : String) : List Nat :=
  match env.fetchUpstream clubId with
  | .failed => []
  | .nonArray => []
  | .arr matchesData =>
    if matchesData.isEmpty then [] else matchesData.filterMap env.saveMatch

/-- The per-club loop shared by the queue processor (src/unnamed/part_017
lines 60-82) and `runSchedulerManually` (scheduler.actions.ts lines
271-290): skip clubs that are not in the registry, otherwise count the
club as processed and add the fetched item count; a step that throws
(only the club lookup can, since `importMatchesFromEA` is total) aborts
the loop carrying the error message and the counts accumulated so far. -/
def processClubs (env : RunEnv) :
    List String → Nat → Nat → Except (String × Nat × Nat) (Nat × Nat)
  | [], clubsProcessed, matchesCollected => .ok (clubsProcessed, matchesCollected)
  | c :: rest, clubsProcessed, matchesCollected =>
    match env.findClub c with
    | .error e => .error (e, clubsProcessed, matchesCollected)
    | .ok false => processClubs env rest clubsProcessed matchesCollected
    | .ok true =>
      processClubs env rest (clubsProcessed + 1)
        (matchesCollected + (importMatchesFromEA env c).length)

/-- `Scheduler.findById` over the store. -/
def findScheduler (store : List Scheduler) (i : String) : Option Scheduler :=
  store.find? (fun t => t.schedulerId == i)

/-- `Scheduler.findByIdAndUpdate` over the store. -/
def storeUpdate (store : List Scheduler) (i : String)
    (f : Scheduler → Scheduler) : List Scheduler :=
  store.map (fun t => if t.schedulerId == i then f t else t)

/-- The object returned by a runner execution. -/
structure RunResult where
  status : ExecStatus
  matchesCollected : Nat
  clubsProcessed : Nat
  duration : Nat
  errorMsg : Option String
deriving DecidableEq, Repr

/-- The clubs of the list that the registry lookup reports as present. -/
def presentClubs (env : RunEnv) (clubs : List String) : List String :=
  clubs.filter fun c =>
    match env.findClub c with
    | .ok true => true
    | _ => false

/-- Total number of items collected over the present clubs. -/
def itemsTotal (env : RunEnv) (clubs : List String) : Nat :=
  ((presentClubs env clubs).map fun c => (importMatchesFromEA env c).length).sum

/-- `runSchedulerManually` (scheduler.actions.ts lines 258-343): bail out
with null when the scheduler is missing or inactive; otherwise run the
club loop; on success store `lastRun`, the config-based `nextRun` and a
success history entry; on a thrown step store `lastRun` and an error
history entry (leaving `nextRun` untouched); either way the result object
is returned.  Durations are 0 on the instantaneous model timeline. -/
def runSchedulerManually (env : RunEnv) (now : Nat) (store : List Scheduler)
    (i : String) : Option RunResult × List Scheduler :=
  match findScheduler store i with
  | none => (none, store)
  | some s =>
    if s.isActive then
      match processClubs env s.clubs 0 0 with
      | .ok (p, col) =>
        (some { status := .success, matchesCollected := col, clubsProcessed := p,
                duration := 0, errorMsg := none },
         storeUpdate store i fun t =>
           { t with lastRun := some now,
                    nextRun := some (calculateNextRun now (some s.scheduleConfig)),
                    executionHistory := t.executionHistory ++
                      [{ timestamp := now, status := .success, matchesCollected := col,
                         clubsProcessed := p, errorMsg := none, duration := 0 }] })
      | .error (e, p, col) =>
        (some { status := .error, matchesCollected := col, clubsProcessed := p,
                duration := 0, errorMsg := some e },
         storeUpdate store i fun t =>
           { t with lastRun := some now,
                    executionHistory := t.executionHistory ++
                      [{ timestamp := now, status := .error, matchesCollected := col,
                         clubsProcessed := p, errorMsg := some e, duration := 0 }] })
    else (none, store)

/-- The Bull `run-scheduler` processor (src/unnamed/part_017 lines
42-134): throw when the scheduler is missing or inactive; otherwise run
the club loop; on success call `updateSchedulerExecution` (success entry)
and then overwrite `lastRun`/`nextRun` with the config-based next run
(lines 94-100) and return the result; on a thrown step call
`updateSchedulerExecution` (error entry) and rethrow.  The redundant
`scheduleNextRun` enqueue is part of the queue model, not of the store
transition. -/
def runSchedulerJobProcessor (env : RunEnv) (now : Nat) (store : List Scheduler)
    (i : String) : Except String RunResult × List Scheduler :=
  match findScheduler store i with
  | none => (.error ("Scheduler " ++ i ++ " not found or inactive"), store)
  | some s =>
    if s.isActive then
      match processClubs env s.clubs 0 0 with
      | .ok (p, col) =>
        let st1 := storeUpdate store i (updateSchedulerExecution now
          { status := .success, matchesCollected := col, clubsProcessed := p,
            errorMsg := none, duration := 0 })
        let st2 := storeUpdate st1 i fun t =>
          { t with lastRun := some now,
                   nextRun := some (calculateNextRun now (some s.scheduleConfig)) }
        (.ok { status := .success, matchesCollected := col, clubsProcessed := p,
               duration := 0, errorMsg := none }, st2)
      | .error (e, p, col) =>
        (.error e,
         storeUpdate store i (updateSchedulerExecution now
           { status := .error, matchesCollected := col, clubsProcessed := p,
             errorMsg := some e, duration := 0 }))
    else (.error ("Scheduler " ++ i ++ " not found or inactive"), store)

/-- When no club lookup throws, the loop runs to completion and counts
exactly the present clubs and their fetched items. -/
theorem processClubs_ok (env : RunEnv) :
    ∀ (clubs : List String), (∀ c ∈ clubs, ∃ b, env.findClub c = .ok b) →
    ∀ p0 c0, processClubs env clubs p0 c0 =
      .ok (p0 + (presentClubs env clubs).length, c0 + itemsTotal env clubs) := by
  intro clubs
  induction clubs with
  | nil => intro _ p0 c0; simp [processClubs, presentClubs, itemsTotal]
  | cons c rest ih =>
    intro h p0 c0
    obtain ⟨b, hb⟩ := h c (List.mem_cons_self c rest)
    have ih' := ih (fun c' hc' => h c' (List.mem_cons_of_mem c hc'))
    cases b with
    | false =>
      simp only [processClubs, hb]
      rw [ih' p0 c0]
      simp [presentClubs, itemsTotal, List.filter_cons, hb]
    | true =>
      simp only [processClubs, hb]
      rw [ih' (p0 + 1) (c0 + (importMatchesFromEA env c).length)]
      simp [presentClubs, itemsTotal, List.filter_cons, hb]
      omega

/-- When every lookup before `c` succeeds and the lookup of `c` throws,
the loop aborts at `c` with the counts accumulated over the prefix. -/
theorem processClubs_error_at (env : RunEnv) :
    ∀ (pre : List String) (c : String) (post : List String) (e : String),
    (∀ c' ∈ pre, ∃ b, env.findClub c' = .ok b) →
    env.findClub c = .error e →
    ∀ p0 c0, processClubs env (pre ++ c :: post) p0 c0 =
      .error (e, p0 + (presentClubs env pre).length, c0 + itemsTotal env pre) := by
  intro pre
  induction pre with
  | nil =>
    intro c post e _ hc p0 c0
    simp [processClubs, hc, presentClubs, itemsTotal]
  | cons c' rest ih =>
    intro c post e h hc p0 c0
    obtain ⟨b, hb⟩ := h c' (List.mem_cons_self c' rest)
    have ih' := ih c post e (fun x hx => h x (List.mem_cons_of_mem c' hx)) hc
    cases b with
    | false =>
      simp only [List.cons_append, processClubs, hb, List.append_eq]
      rw [ih' p0 c0]
      simp [presentClubs, itemsTotal, List.filter_cons, hb]
    | true =>
      simp only [List.cons_append, processClubs, hb, List.append_eq]
      rw [ih' (p0 + 1) (c0 + (importMatchesFromEA env c').length)]
      simp [presentClubs, itemsTotal, List.filter_cons, hb]
      omega

/-- The loop can only abort because some club lookup threw. -/
theorem processClubs_error_src (env : RunEnv) :
    ∀ (clubs : List String) (p0 c0 : Nat) (e : String) (p cl : Nat),
    processClubs env clubs p0 c0 = .error (e, p, cl) →
    ∃ c ∈ clubs, env.findClub c = .error e := by
  intro clubs
  induction clubs with
  | nil => intro p0 c0 e p cl h; simp [processClubs] at h
  | cons c rest ih =>
    intro p0 c0 e p cl h
    simp only [processClubs] at h
    cases hb : env.findClub c with
    | error e' =>
      rw [hb] at h
      simp only [Except.error.injEq, Prod.mk.injEq] at h
      exact ⟨c, List.mem_cons_self c rest, by rw [hb, h.1]⟩
    | ok b =>
      rw [hb] at h
      cases b with
      | false =>
        obtain ⟨c', hc', he⟩ := ih _ _ _ _ _ h
        exact ⟨c', List.mem_cons_of_mem c hc', he⟩
      | true =>
        obtain ⟨c', hc', he⟩ := ih _ _ _ _ _ h
        exact ⟨c', List.mem_cons_of_mem c hc', he⟩

deriving instance DecidableEq for Except

/-- A run environment where every club exists, saving always succeeds,
and the upstream fetch fails exactly for "club2". -/
def envFetchFail : RunEnv :=
  { findClub := fun _ => .ok true,
    fetchUpstream := fun c => if c = "club2" then .failed else .arr [7],
    saveMatch := fun m => some m }

/-- The Tuesday scheduler, active. -/
def schedTueActive : Scheduler := { schedTue with isActive := true }

/-- A store holding only the active Tuesday scheduler. -/
def storeW : List Scheduler := [schedTueActive]

/-- Counterexample to C2: with clubs `[club1, club2, club3]` all present
and the Data Source fetch failing for `club2`, the run does NOT abort:
all three clubs are processed, the job returns status `success`, and the
persisted history entry has status `success` — not `error`, and not the
counts accumulated strictly before the failing fetch. -/
theorem C2_counterexample_fetch_failure_run_succeeds :
    envFetchFail.fetchUpstream "club2" = .failed ∧
    schedTueActive.clubs = ["club1", "club2", "club3"] ∧
    (runSchedulerJobProcessor envFetchFail 0 storeW "s1").1 =
      .ok { status := .success, matchesCollected := 2, clubsProcessed := 3,
            duration := 0, errorMsg := none } ∧
    ((runSchedulerJobProcessor envFetchFail 0 storeW "s1").2.map
      fun t => t.executionHistory.map fun r => r.status) = [[.success]] := by
  refine ⟨by decide, by decide, by decide, by decide⟩

/-- C2 amended: a Data Source fetch failure does not abort the run —
`importMatchesFromEA` turns it into `[]` and the loop continues — so when
every club lookup succeeds the execution completes with status `success`
and `clubsProcessed` counts every present club, a club whose fetch failed
included (contributing zero items).  The abort-with-status-`error` path,
retaining the counts accumulated strictly before the failure, occurs only
when a loop step itself throws (the club lookup). -/
theorem C2_amended_fetch_failure_no_abort (env : RunEnv) (now : Nat)
    (store : List Scheduler) (i : String) (s : Scheduler)
    (hfind : findScheduler store i = some s) (hact : s.isActive = true) :
    ((∀ c ∈ s.clubs, ∃ b, env.findClub c = .ok b) →
      (runSchedulerJobProcessor env now store i).1 =
        .ok { status := .success, matchesCollected := itemsTotal env s.clubs,
              clubsProcessed := (presentClubs env s.clubs).length,
              duration := 0, errorMsg := none }) ∧
    (∀ pre c post e, s.clubs = pre ++ c :: post →
      (∀ c' ∈ pre, ∃ b, env.findClub c' = .ok b) →
      env.findClub c = .error e →
      (runSchedulerJobProcessor env now store i).1 = .error e ∧
      (runSchedulerJobProcessor env now store i).2 =
        storeUpdate store i (updateSchedulerExecution now
          { status := .error, matchesCollected := itemsTotal env pre,
            clubsProcessed := (presentClubs env pre).length,
            errorMsg := some e, duration := 0 })) := by
  constructor
  · intro h
    simp [runSchedulerJobProcessor, hfind, hact,
      processClubs_ok env s.clubs h 0 0]
  · intro pre c post e hclubs hpre hc
    have herr := processClubs_error_at env pre c post e hpre hc 0 0
    constructor
    · simp [runSchedulerJobProcessor, hfind, hact, hclubs, herr]
    · simp [runSchedulerJobProcessor, hfind, hact, hclubs, herr]

/-- Witness for the amended C2: the concrete environment where the fetch
for "club2" fails, applied to the active three-club scheduler. -/
theorem C2_amended_fetch_failure_no_abort_witness :
    (findScheduler storeW "s1" = some schedTueActive ∧
      schedTueActive.isActive = true) ∧
    (runSchedulerJobProcessor envFetchFail 0 storeW "s1").1 =
      .ok { status := .success,
            matchesCollected := itemsTotal envFetchFail schedTueActive.clubs,
            clubsProcessed := (presentClubs envFetchFail schedTueActive.clubs).length,
            duration := 0, errorMsg := none } :=
  ⟨⟨by decide, by decide⟩,
    (C2_amended_fetch_failure_no_abort envFetchFail 0 storeW "s1" schedTueActive
      (by decide) (by decide)).1 (fun c _ => ⟨true, rfl⟩)⟩

/-- C10: `importMatchesFromEA` is total at its interface: on a failed
fetch, a non-array payload, or an empty array it returns `[]`; on an
array it returns the successfully saved matches — always an array, never
null, never an exception — and consequently the club loop of a runner
execution can only abort because a club lookup threw, never because of
the fetch step. -/
theorem C10_importMatchesFromEA_total (env : RunEnv) (c : String)
    (clubs : List String) :
    (env.fetchUpstream c = .failed → importMatchesFromEA env c = []) ∧
    (env.fetchUpstream c = .nonArray → importMatchesFromEA env c = []) ∧
    (∀ items, env.fetchUpstream c = .arr items →
      importMatchesFromEA env c =
        if items.isEmpty then [] else items.filterMap env.saveMatch) ∧
    (∀ p0 c0 e p cl, processClubs env clubs p0 c0 = .error (e, p, cl) →
      ∃ c' ∈ clubs, env.findClub c' = .error e) := by
  refine ⟨fun h => ?_, fun h => ?_, fun items h => ?_,
    fun p0 c0 e p cl h => processClubs_error_src env clubs p0 c0 e p cl h⟩ <;>
    simp [importMatchesFromEA, h]

/-- Witness for C10 on the concrete failing fetch. -/
theorem C10_importMatchesFromEA_total_witness :
    envFetchFail.fetchUpstream "club2" = .failed ∧
    importMatchesFromEA envFetchFail "club2" = [] :=
  ⟨by decide,
    (C10_importMatchesFromEA_total envFetchFail "club2" []).1 (by decide)⟩

/-- C8: when the scheduler is missing from the store or inactive, both
run entry points are no-ops on the store: `runSchedulerManually` returns
null and the queue processor throws, and in both cases no history entry
is appended and `lastRun`/`nextRun` are untouched (the whole store is
returned unchanged). -/
theorem C8_run_missing_or_inactive_noop (env : RunEnv) (now : Nat)
    (store : List Scheduler) (i : String)
    (h : findScheduler store i = none ∨
      ∃ s, findScheduler store i = some s ∧ s.isActive = false) :
    runSchedulerManually env now store i = (none, store) ∧
    ∃ e, runSchedulerJobProcessor env now store i = (.error e, store) := by
  rcases h with h | ⟨s, hs, hact⟩
  · exact ⟨by simp [runSchedulerManually, h],
      ⟨"Scheduler " ++ i ++ " not found or inactive",
        by simp [runSchedulerJobProcessor, h]⟩⟩
  · exact ⟨by simp [runSchedulerManually, hs, hact],
      ⟨"Scheduler " ++ i ++ " not found or inactive",
        by simp [runSchedulerJobProcessor, hs, hact]⟩⟩

/-! ## Execution history query -/

/-- Insertion into a list sorted by descending timestamp.  Models the
source comparator `(a, b) => b.timestamp - a.timestamp`: the comparator
only pins down "sorted permutation, newest first", which any correct
sort, this one included, produces. -/
def insertDesc (r : ExecutionHistoryEntry) :
    List ExecutionHistoryEntry → List ExecutionHistoryEntry
  | [] => [r]
  | x :: xs =>
    if x.timestamp ≤ r.timestamp then r :: x :: xs else x :: insertDesc r xs

/-- Sort history entries newest-first by timestamp. -/
def sortByTimestampDesc (l : List ExecutionHistoryEntry) :
    List ExecutionHistoryEntry :=
  l.foldr insertDesc []

/-- `getSchedulerExecutionHistory` (scheduler.actions.ts lines 415-435):
`[]` when the scheduler is missing (or its history absent, which the
empty list also covers), otherwise the stored history sorted newest-first
and truncated with `slice(0, limit)`. -/
def getSchedulerExecutionHistory (s : Option Scheduler) (limit : Nat) :
    List ExecutionHistoryEntry :=
  match s with
  | none => []
  | some sch => (sortByTimestampDesc sch.executionHistory).take limit

theorem mem_insertDesc {a r : ExecutionHistoryEntry}
    {l : List ExecutionHistoryEntry} :
    a ∈ insertDesc r l ↔ a = r ∨ a ∈ l := by
  induction l with
  | nil => simp [insertDesc]
  | cons x xs ih =>
    simp only [insertDesc]
    split
    · simp [List.mem_cons]
    · simp only [List.mem_cons, ih]
      tauto

theorem pairwise_insertDesc {r : ExecutionHistoryEntry}
    {l : List ExecutionHistoryEntry}
    (h : l.Pairwise (fun a b => b.timestamp ≤ a.timestamp)) :
    (insertDesc r l).Pairwise (fun a b => b.timestamp ≤ a.timestamp) := by
  induction l with
  | nil => simp [insertDesc]
  | cons x xs ih =>
    rcases List.pairwise_cons.mp h with ⟨hx, hxs⟩
    simp only [insertDesc]
    split
    case isTrue hle =>
      refine List.pairwise_cons.mpr ⟨?_, h⟩
      intro y hy
      rcases List.mem_cons.mp hy with rfl | hy'
      · exact hle
      · exact le_trans (hx y hy') hle
    case isFalse hgt =>
      refine List.pairwise_cons.mpr ⟨?_, ih hxs⟩
      intro y hy
      rcases mem_insertDesc.mp hy with rfl | hy'
      · omega
      · exact hx y hy'

theorem pairwise_sortByTimestampDesc (l : List ExecutionHistoryEntry) :
    (sortByTimestampDesc l).Pairwise (fun a b => b.timestamp ≤ a.timestamp) := by
  induction l with
  | nil => simp [sortByTimestampDesc]
  | cons x xs ih => exact pairwise_insertDesc ih

theorem mem_sortByTimestampDesc {a : ExecutionHistoryEntry}
    {l : List ExecutionHistoryEntry} :
    a ∈ sortByTimestampDesc l ↔ a ∈ l := by
  induction l with
  | nil => simp [sortByTimestampDesc]
  | cons x xs ih =>
    show a ∈ insertDesc x (sortByTimestampDesc xs) ↔ _
    rw [mem_insertDesc, ih]
    simp [List.mem_cons]

/-- C7: the history query returns at most `limit` entries, sorted
newest-first (every entry's timestamp is ≥ every later entry's), and
every returned entry belongs to the scheduler's stored history. -/
theorem C7_execution_history_query (s : Option Scheduler) (limit : Nat) :
    (getSchedulerExecutionHistory s limit).length ≤ limit ∧
    (getSchedulerExecutionHistory s limit).Pairwise
      (fun a b => b.timestamp ≤ a.timestamp) ∧
    ∀ r ∈ getSchedulerExecutionHistory s limit,
      ∃ sch, s = some sch ∧ r ∈ sch.executionHistory := by
  cases s with
  | none => simp [getSchedulerExecutionHistory]
  | some sch =>
    refine ⟨?_, ?_, ?_⟩
    · exact List.length_take_le limit (sortByTimestampDesc sch.executionHistory)
    · exact List.Pairwise.sublist (List.take_sublist _ _)
        (pairwise_sortByTimestampDesc sch.executionHistory)
    · intro r hr
      exact ⟨sch, rfl,
        mem_sortByTimestampDesc.mp (List.take_subset _ _ hr)⟩

/-- Witness for C8: the inactive Tuesday scheduler is a no-op for both
entry points. -/
theorem C8_run_missing_or_inactive_noop_witness :
    (findScheduler [schedTue] "s1" = some schedTue ∧ schedTue.isActive = false) ∧
    (runSchedulerManually envFetchFail 5 [schedTue] "s1" = (none, [schedTue]) ∧
      ∃ e, runSchedulerJobProcessor envFetchFail 5 [schedTue] "s1" =
        (.error e, [schedTue])) :=
  ⟨⟨by decide, by decide⟩,
    C8_run_missing_or_inactive_noop envFetchFail 5 [schedTue] "s1"
      (Or.inr ⟨schedTue, by decide, by decide⟩)⟩

/-! ## Job queue and trigger loop -/

/-- State of a Bull job. -/
inductive JobState where
  | waiting
  | active
  | completed
  | failed
deriving DecidableEq, Repr

/-- A queue job; `run-scheduler` jobs carry the scheduler id as data. -/
structure Job where
  schedulerId : String
  state : JobState
deriving DecidableEq, Repr

/-- A job counts as in flight for id `i` when `getWaiting()` or
`getActive()` reports it with that scheduler id. -/
def isInFlightFor (i : String) (j : Job) : Bool :=
  j.schedulerId == i && (j.state == .waiting || j.state == .active)

/-- `addSchedulerJob` with zero delay (src/unnamed/part_017 lines
160-181): append a waiting job for the scheduler. -/
def addSchedulerJob (i : String) (q : List Job) : List Job :=
  q ++ [{ schedulerId := i, state := .waiting }]

/-- One iteration of the `checkAndScheduleSchedulers` loop
(src/unnamed/part_017 lines 208-220): enqueue unless some waiting or
active job with this scheduler id already exists. -/
def enqueueIfAbsent (q : List Job) (i : String) : List Job :=
  if q.any (isInFlightFor i) then q else addSchedulerJob i q

/-- `getSchedulersToRun` (scheduler.actions.ts lines 349-365): active
schedulers whose `nextRun` is present and ≤ now; a document without a
`nextRun` never matches the `$lte` filter. -/
def getSchedulersToRun (now : Nat) (store : List Scheduler) : List Scheduler :=
  store.filter fun t =>
    t.isActive && (match t.nextRun with
      | some r => decide (r ≤ now)
      | none => false)

/-- `checkAndScheduleSchedulers`: one trigger-loop tick over the store,
threading the queue through the per-scheduler enqueue check. -/
def checkAndScheduleSchedulers (now : Nat) (store : List Scheduler)
    (q : List Job) : List Job :=
  (getSchedulersToRun now store).foldl
    (fun acc t => enqueueIfAbsent acc t.schedulerId) q

/-- Number of in-flight (waiting or active) jobs for a scheduler id. -/
def inFlightCount (i : String) (q : List Job) : Nat :=
  (q.filter (isInFlightFor i)).length

theorem inFlightCount_eq_zero_iff (i : String) (q : List Job) :
    inFlightCount i q = 0 ↔ q.any (isInFlightFor i) = false := by
  simp [inFlightCount, List.length_eq_zero, List.filter_eq_nil_iff,
    List.any_eq_false]

theorem inFlightCount_addSchedulerJob (i : String) (q : List Job) :
    inFlightCount i (addSchedulerJob i q) = inFlightCount i q + 1 := by
  unfold inFlightCount addSchedulerJob
  rw [List.filter_append]
  simp [isInFlightFor]

theorem enqueueIfAbsent_of_inFlight {i : String} {q : List Job}
    (h : q.any (isInFlightFor i) = true) : enqueueIfAbsent q i = q := by
  simp [enqueueIfAbsent, h]

theorem mem_enqueueIfAbsent {j : Job} {q : List Job} {i : String}
    (h : j ∈ enqueueIfAbsent q i) : j ∈ q ∨ j.schedulerId = i := by
  unfold enqueueIfAbsent at h
  split at h
  · exact Or.inl h
  · unfold addSchedulerJob at h
    rcases List.mem_append.mp h with h' | h'
    · exact Or.inl h'
    · rw [List.mem_singleton.mp h']
      exact Or.inr rfl

theorem mem_foldl_enqueue (l : List Scheduler) :
    ∀ (q : List Job) (j : Job),
    j ∈ l.foldl (fun acc t => enqueueIfAbsent acc t.schedulerId) q →
    j ∈ q ∨ ∃ s ∈ l, j.schedulerId = s.schedulerId := by
  induction l with
  | nil => intro q j h; exact Or.inl h
  | cons t rest ih =>
    intro q j h
    rcases ih _ j h with h' | ⟨s, hs, hid⟩
    · rcases mem_enqueueIfAbsent h' with h'' | hid
      · exact Or.inl h''
      · exact Or.inr ⟨t, List.mem_cons_self t rest, hid⟩
    · exact Or.inr ⟨s, List.mem_cons_of_mem t hs, hid⟩

/-- C4: the pre-enqueue existence check deduplicates: from a queue with
no in-flight job for the task, a first enqueue creates exactly one
in-flight job, and a second enqueue performed before the first job starts
(it is still waiting) leaves that single job — so at most one concurrent
runner execution can follow for that task id. -/
theorem C4_enqueue_twice_single_inflight (i : String) (q : List Job)
    (h : inFlightCount i q = 0) :
    inFlightCount i (enqueueIfAbsent q i) = 1 ∧
    inFlightCount i (enqueueIfAbsent (enqueueIfAbsent q i) i) = 1 := by
  have hz : q.any (isInFlightFor i) = false :=
    (inFlightCount_eq_zero_iff i q).mp h
  have h1 : inFlightCount i (enqueueIfAbsent q i) = 1 := by
    unfold enqueueIfAbsent
    rw [hz]
    simp [inFlightCount_addSchedulerJob, h]
  refine ⟨h1, ?_⟩
  have hnz : (enqueueIfAbsent q i).any (isInFlightFor i) = true := by
    cases han : (enqueueIfAbsent q i).any (isInFlightFor i) with
    | true => rfl
    | false =>
      have := (inFlightCount_eq_zero_iff i _).mpr han
      omega
  rw [enqueueIfAbsent_of_inFlight hnz]
  exact h1

/-- Witness for C4 starting from the empty queue. -/
theorem C4_enqueue_twice_single_inflight_witness :
    inFlightCount "s1" [] = 0 ∧
    (inFlightCount "s1" (enqueueIfAbsent [] "s1") = 1 ∧
      inFlightCount "s1" (enqueueIfAbsent (enqueueIfAbsent [] "s1") "s1") = 1) :=
  ⟨by decide, C4_enqueue_twice_single_inflight "s1" [] (by decide)⟩

/-- C5: after `stopScheduler` the task's `nextRun` is absent, the
due-task query of a trigger tick never selects a task in the stopped
state, and a tick never enqueues a job for it: every job with its id
found after the tick was already in the queue before. -/
theorem C5_stop_prevents_enqueue (t : Scheduler) (now : Nat)
    (store : List Scheduler) (q : List Job)
    (hstore : ∀ s ∈ store, s.schedulerId = t.schedulerId → s = stopScheduler t) :
    (stopScheduler t).nextRun = none ∧
    (∀ s ∈ getSchedulersToRun now store, s.schedulerId ≠ t.schedulerId) ∧
    (∀ j ∈ checkAndScheduleSchedulers now store q,
      j.schedulerId = t.schedulerId → j ∈ q) := by
  have hsel : ∀ s ∈ getSchedulersToRun now store,
      s.schedulerId ≠ t.schedulerId := by
    intro s hs heq
    simp only [getSchedulersToRun, List.mem_filter] at hs
    obtain ⟨hmem, hpred⟩ := hs
    rw [hstore s hmem heq] at hpred
    simp [stopScheduler] at hpred
  refine ⟨rfl, hsel, ?_⟩
  intro j hj heq
  rcases mem_foldl_enqueue _ _ _ hj with h' | ⟨s, hs, hid⟩
  · exact h'
  · rw [hid] at heq
    exact absurd heq (hsel s hs)

/-- Witness for C5: a store holding only the stopped Tuesday scheduler,
with an empty queue. -/
theorem C5_stop_prevents_enqueue_witness :
    (∀ s ∈ [stopScheduler schedTueActive],
      s.schedulerId = schedTueActive.schedulerId → s = stopScheduler schedTueActive) ∧
    ((stopScheduler schedTueActive).nextRun = none ∧
      (∀ s ∈ getSchedulersToRun 10 [stopScheduler schedTueActive],
        s.schedulerId ≠ schedTueActive.schedulerId) ∧
      (∀ j ∈ checkAndScheduleSchedulers 10 [stopScheduler schedTueActive] [],
        j.schedulerId = schedTueActive.schedulerId → j ∈ [])) :=
  ⟨by decide,
    C5_stop_prevents_enqueue schedTueActive 10 [stopScheduler schedTueActive] []
      (by decide)⟩

/-! ## Trigger-loop cron service state machine -/

/-- The module state of `schedulerCronService.ts`: whether the interval
is armed (`isRunning`) and the consecutive-error counter (`errorCount`).
`lastCheckTime` and the interval handle carry no logical content. -/
structure CronState where
  isRunning : Bool
  errorCount : Nat
deriving DecidableEq, Repr

/-- `MAX_CONSECUTIVE_ERRORS` (schedulerCronService.ts line 17). -/
def MAX_CONSECUTIVE_ERRORS : Nat := 5

/-- `startSchedulerCron` (schedulerCronService.ts lines 24-56): a no-op
when already running, otherwise arm the timer and zero the counter. -/
def startSchedulerCron (s : CronState) : CronState :=
  if s.isRunning then s else { isRunning := true, errorCount := 0 }

/-- `stopSchedulerCron` (schedulerCronService.ts lines 62-83): a no-op
when not running, otherwise disarm the timer; the error counter is left
as is. -/
def stopSchedulerCron (s : CronState) : CronState :=
  if s.isRunning then { s with isRunning := false } else s

/-- `runSchedulerCheck` (schedulerCronService.ts lines 89-120) when the
check succeeds: reset the error counter to zero. -/
def tickSuccess (s : CronState) : CronState :=
  { s with errorCount := 0 }

/-- `runSchedulerCheck` when the check throws: increment the counter and,
once it reaches `MAX_CONSECUTIVE_ERRORS`, call `stopSchedulerCron`. -/
def tickFailure (s : CronState) : CronState :=
  if MAX_CONSECUTIVE_ERRORS ≤ s.errorCount + 1 then
    stopSchedulerCron { s with errorCount := s.errorCount + 1 }
  else { s with errorCount := s.errorCount + 1 }

/-- Transitions of the trigger loop: external `start`/`stop` calls are
always possible; timer ticks fire only while the interval is armed. -/
inductive CronStep : CronState → CronState → Prop where
  | start (s : CronState) : CronStep s (startSchedulerCron s)
  | stop (s : CronState) : CronStep s (stopSchedulerCron s)
  | tickOk (s : CronState) (h : s.isRunning = true) : CronStep s (tickSuccess s)
  | tickErr (s : CronState) (h : s.isRunning = true) : CronStep s (tickFailure s)

/-- States reachable from the initial module state (not running, zero
errors). -/
inductive CronReachable : CronState → Prop where
  | init : CronReachable { isRunning := false, errorCount := 0 }
  | step {s s' : CronState} : CronReachable s → CronStep s s' → CronReachable s'

/-- The inductive invariant of the loop: while running, the error counter
stays below the bound. -/
theorem cron_running_invariant {s : CronState} (h : CronReachable s) :
    s.isRunning = true → s.errorCount < MAX_CONSECUTIVE_ERRORS := by
  induction h with
  | init => intro h'; exact absurd h' (by decide)
  | step hr hstep ih =>
    cases hstep with
    | start =>
      unfold startSchedulerCron
      split
      · exact ih
      · intro _
        show (0 : Nat) < MAX_CONSECUTIVE_ERRORS
        decide
    | stop =>
      unfold stopSchedulerCron
      split
      · intro h'; simp at h'
      · exact ih
    | tickOk hrun =>
      intro _
      show (0 : Nat) < MAX_CONSECUTIVE_ERRORS
      decide
    | tickErr hrun =>
      unfold tickFailure stopSchedulerCron
      split
      case isTrue hge =>
        intro h'
        simp at h'
      case isFalse hlt =>
        intro _
        show _ + 1 < MAX_CONSECUTIVE_ERRORS
        omega

/-- C6: a throwing tick increments the consecutive-error counter and a
successful tick resets it; a tick whose increment reaches the bound of 5
leaves the loop stopped; consequently in every reachable state the loop
is never running with a counter ≥ 5; and from any stopped state the only
transition that resumes running is an explicit external `start()` — in
particular no tick can fire while stopped. -/
theorem C6_cron_error_handling (s : CronState) (h : CronReachable s) :
    (tickFailure s).errorCount = s.errorCount + 1 ∧
    (tickSuccess s).errorCount = 0 ∧
    (MAX_CONSECUTIVE_ERRORS ≤ s.errorCount + 1 → (tickFailure s).isRunning = false) ∧
    (s.isRunning = true → s.errorCount < MAX_CONSECUTIVE_ERRORS) ∧
    (s.isRunning = false → ∀ s', CronStep s s' → s'.isRunning = true →
      s' = startSchedulerCron s) := by
  refine ⟨?_, rfl, ?_, cron_running_invariant h, ?_⟩
  · unfold tickFailure stopSchedulerCron
    split
    · split <;> rfl
    · rfl
  · intro hge
    unfold tickFailure stopSchedulerCron
    rw [if_pos hge]
    split
    · rfl
    case isFalse hnr => simpa using hnr
  · intro hstop s' hstep hrun
    cases hstep with
    | start => rfl
    | stop => simp [stopSchedulerCron, hstop] at hrun
    | tickOk hr => rw [hstop] at hr; exact absurd hr (by decide)
    | tickErr hr => rw [hstop] at hr; exact absurd hr (by decide)

/-- Witness for C6 at the state just after an external `start()` from the
initial state. -/
theorem C6_cron_error_handling_witness :
    (tickFailure (startSchedulerCron { isRunning := false, errorCount := 0 })).errorCount =
      (startSchedulerCron { isRunning := false, errorCount := 0 }).errorCount + 1 ∧
    (tickSuccess (startSchedulerCron { isRunning := false, errorCount := 0 })).errorCount = 0 ∧
    (MAX_CONSECUTIVE_ERRORS ≤
        (startSchedulerCron { isRunning := false, errorCount := 0 }).errorCount + 1 →
      (tickFailure (startSchedulerCron { isRunning := false, errorCount := 0 })).isRunning = false) ∧
    ((startSchedulerCron { isRunning := false, errorCount := 0 }).isRunning = true →
      (startSchedulerCron { isRunning := false, errorCount := 0 }).errorCount <
        MAX_CONSECUTIVE_ERRORS) ∧
    ((startSchedulerCron { isRunning := false, errorCount := 0 }).isRunning = false →
      ∀ s', CronStep (startSchedulerCron { isRunning := false, errorCount := 0 }) s' →
        s'.isRunning = true →
        s' = startSchedulerCron (startSchedulerCron { isRunning := false, errorCount := 0 })) :=
  C6_cron_error_handling (startSchedulerCron { isRunning := false, errorCount := 0 })
    (CronReachable.step CronReachable.init (CronStep.start _))

end XBlade
